import Mathlib

/-!
# Verification of the eino-rag core against its specification

Shallow embedding of the eino-rag repository's core algorithms:

* the length chunker (`DocumentProcessor.splitByLength` / `ProcessText`,
  `internal/services/document`),
* the embedding service and its Redis cache
  (`internal/services/rag/embedding.go`, `internal/db/redis.go`),
* the document metadata store with `UploadDocument` / `DeleteDocument`
  (`internal/services/document/service.go`),
* the conversation persistence of the chat engine and the streaming chat
  handler (`internal/services/chat`, `internal/handlers`).

Go strings and byte slices are modelled as `List Nat` of byte values; the
64-bit wraparound of `uint64` arithmetic is written out as `% 2 ^ 64`.
External collaborators (the embedding HTTP service, Milvus, SHA-256 from
`crypto/sha256`, format-specific parsers) are parameters of the embedded
operations, since their code is not part of this repository.
-/

namespace EinoRag

/-- Go strings / byte slices, as lists of byte values. -/
abbrev Bytes := List Nat

/-! ## Length chunker (`DocumentProcessor.splitByLength`)

Source: `internal/services/document/service.go`, `splitByLength`.
The loop slides a window of `chunkSize` bytes, nudges the window end
backwards by up to 50 bytes to a space or newline, trims the chunk, and
advances by `end - overlap` with a `+1` forward-progress guard.  An
iteration counter breaks out of the loop after 1000 iterations. -/

/-- `content[i] == ' ' || content[i] == '\n'` in the boundary scan. -/
def goIsSpaceNl (b : Nat) : Bool := b == 32 || b == 10

/-- ASCII bytes removed by `strings.TrimSpace` (space and `\t\n\v\f\r`). -/
def goIsSpaceByte (b : Nat) : Bool :=
  b == 9 || b == 10 || b == 11 || b == 12 || b == 13 || b == 32

/-- `strings.TrimSpace`: strip whitespace from both ends. -/
def goTrim (l : Bytes) : Bytes :=
  ((l.dropWhile goIsSpaceByte).reverse.dropWhile goIsSpaceByte).reverse

/-- The inner backward scan of `splitByLength`:
`for i := end; i > start && i > end-50; i-- { if content[i]==' '||content[i]=='\n' { end = i; break } }`.
`stop` is `end - 50` (truncated at 0, which agrees with the Go comparison
against a negative bound because the loop also requires `i > start ≥ 0`).
The scan starts at `i = end`, which is always `< len(content)` at the call
site, so the `getD` default is never read. -/
def findBoundary (content : Bytes) (start stop : Nat) : Nat → Option Nat
  | 0 => none
  | i + 1 =>
    if start < i + 1 && stop < i + 1 then
      if goIsSpaceNl (content.getD (i + 1) 0) then some (i + 1)
      else findBoundary content start stop i
    else none

/-- `nextStart := end - overlap; if nextStart <= start { nextStart = start + 1 }`.
With `Nat` subtraction a negative Go value becomes `0 ≤ start`, selecting
`start + 1` exactly as the Go code does. -/
def goNextStart (start e overlap : Nat) : Nat :=
  if e - overlap ≤ start then start + 1 else e - overlap

theorem goNextStart_gt (start e overlap : Nat) :
    start < goNextStart start e overlap := by
  unfold goNextStart
  split <;> omega

/-- One iteration's window end: `end := start + S` clamped to the text
length, then nudged back to a soft word boundary when the window does not
already reach the end of the text. -/
def windowEnd (S : Nat) (content : Bytes) (start : Nat) : Nat :=
  let e0 := min (start + S) content.length
  if e0 < content.length then
    match findBoundary content start (e0 - 50) e0 with
    | some j => j
    | none => e0
  else e0

/-- The main loop of `splitByLength`.  `iter` counts completed iterations;
the Go guard `iteration > 1000` (after `iteration++`) is `1000 < iter + 1`.
On the cap the Go loop `break`s, i.e. the recursion contributes no further
chunks. -/
def splitByLengthLoop (S O : Nat) (content : Bytes) (start iter : Nat) :
    List Bytes :=
  if hlt : start < content.length then
    if 1000 < iter + 1 then []
    else
      let e := windowEnd S content start
      let chunk := goTrim ((content.drop start).take (e - start))
      if content.length ≤ e then [chunk]
      else chunk :: splitByLengthLoop S O content (goNextStart start e O) (iter + 1)
  else []
termination_by content.length - start
decreasing_by
  have h := goNextStart_gt start (windowEnd S content start) O
  omega

/-- `splitByLength`: texts no longer than the chunk size are a single chunk,
otherwise the sliding-window loop runs from `start = 0`. -/
def splitByLength (S O : Nat) (content : Bytes) : List Bytes :=
  if content.length ≤ S then [content]
  else splitByLengthLoop S O content 0 0

/-- `DocumentProcessor.ProcessText` for the `length` strategy: trim the
content, reject blank input with `empty content`, split, and drop the
chunks that are blank after trimming (the loop in `ProcessText` skips
them when building `schema.Document` values).  The `semantic` strategy is
not needed by any claim and is not embedded. -/
def processTextLength (S O : Nat) (content : Bytes) :
    Except String (List Bytes) :=
  let c := goTrim content
  if c.isEmpty then .error "empty content"
  else .ok ((splitByLength S O c).filter (fun ch => !(goTrim ch).isEmpty))

/-! ## Embedding service and its Redis cache

Source: `internal/db/redis.go` (`hashString`, `CacheEmbedding`,
`GetCachedEmbedding`) and `internal/services/rag/embedding.go`
(`EmbedText`, `EmbedTexts`, `generateEmbedding`).

The embedding payloads are `[]float32`; no claim depends on their
arithmetic, so the scalar type is modelled opaquely as `Int`.  The Redis
keyspace `embedding:{hash}` is an association list keyed by the hash
value (the textual key `embedding:%x` is injective in it). -/

/-- A `[]float32` embedding vector, scalars modelled opaquely. -/
abbrev Vec := List Int

/-- `hashString`: `h := uint64(0); for each byte: h = h*31 + uint64(b)`,
with `uint64` wraparound written out. -/
def hashString (s : Bytes) : Nat :=
  s.foldl (fun h b => (h * 31 + b) % 2 ^ 64) 0

/-- The embedding keyspace of Redis: key `embedding:{hashString text}`
maps to the cached vector.  `Set` prepends, `lookup` takes the most
recent binding, which models Redis overwrite semantics. -/
abbrev EmbCache := List (Nat × Vec)

/-- `GetCachedEmbedding`: read `embedding:%x(hashString(text))`. -/
def getCachedEmbedding (cache : EmbCache) (text : Bytes) : Option Vec :=
  cache.lookup (hashString text)

/-- `CacheEmbedding`: write the vector under `embedding:%x(hashString(text))`. -/
def cacheEmbedding (cache : EmbCache) (text : Bytes) (v : Vec) : EmbCache :=
  (hashString text, v) :: cache

/-- The embedding service configuration plus the external Ollama endpoint:
`svc text = none` models an HTTP/API failure, `some v` the decoded
`{"embedding": v}` response. -/
structure EmbedEnv where
  dimension : Nat
  useCache : Bool
  svc : Bytes → Option Vec

/-- `generateEmbedding`: call the service, then reject any response whose
length differs from the configured dimension. -/
def generateEmbedding (env : EmbedEnv) (text : Bytes) : Except String Vec :=
  match env.svc text with
  | none => .error "failed to call ollama API"
  | some v =>
    if v.length ≠ env.dimension then
      .error "unexpected embedding dimension"
    else .ok v

/-- `EmbedText`: serve from the cache when enabled and present (with no
dimension check on that path), otherwise generate and write back (cache
write failures are swallowed, so the write is modelled as succeeding). -/
def embedText (env : EmbedEnv) (cache : EmbCache) (text : Bytes) :
    EmbCache × Except String Vec :=
  match (if env.useCache then getCachedEmbedding cache text else none) with
  | some v => (cache, .ok v)
  | none =>
    match generateEmbedding env text with
    | .error e => (cache, .error e)
    | .ok v =>
      (if env.useCache then cacheEmbedding cache text v else cache, .ok v)

/-- `EmbedTexts`: embed sequentially, threading the cache; the first
failure aborts the batch. -/
def embedTexts (env : EmbedEnv) (cache : EmbCache) :
    List Bytes → EmbCache × Except String (List Vec)
  | [] => (cache, .ok [])
  | t :: ts =>
    match embedText env cache t with
    | (cache', .error e) => (cache', .error e)
    | (cache', .ok v) =>
      match embedTexts env cache' ts with
      | (cache'', .error e) => (cache'', .error e)
      | (cache'', .ok vs) => (cache'', .ok (v :: vs))

/-! ## Metadata store: `UploadDocument` and `DeleteDocument`

Source: `internal/services/document/service.go` and the parser's
`ValidateFileType` (`internal/services/document`, parser file).

The GORM-backed relational store is modelled as lists of rows plus an
auto-increment counter.  A GORM transaction either commits all its writes
or rolls back on the first error, so the embedded operations return the
post-state together with the result; every error branch returns the input
state unchanged.  External effects are parameters: `sha256Hex` stands for
`crypto/sha256`, `parseFn` for `ParseDocument` (whose non-trivial formats
use external libraries), `vecInsertOk`/`vecDeleteOk` for the Milvus calls
(which fail when the adapter is disconnected), `indexTimeout` for the
`select` against `config.IndexTimeout`, and `retrieverNil` for
`s.retriever == nil`. -/

/-- A `models.Document` row (columns irrelevant to the claims omitted). -/
structure Document where
  id : Nat
  knowledgeBaseId : Nat
  fileName : Bytes
  fileSize : Nat
  hash : Nat
  creatorId : Nat
deriving DecidableEq

/-- A `models.KnowledgeBase` row: the claims concern only `id` and
`doc_count` (an integer column that SQL increments and decrements). -/
structure KnowledgeBase where
  id : Nat
  docCount : Int
deriving DecidableEq

/-- The relational store: knowledge-base rows, document rows, and the
auto-increment primary-key counter GORM uses for `Create`. -/
structure MetaStore where
  kbs : List KnowledgeBase
  docs : List Document
  nextDocId : Nat
deriving DecidableEq

/-- ASCII `strings.ToLower` on one byte. -/
def goToLowerByte (b : Nat) : Nat := if 65 ≤ b ∧ b ≤ 90 then b + 32 else b

/-- `strings.ToLower` (ASCII range; suffices for the claims). -/
def goToLower (s : Bytes) : Bytes := s.map goToLowerByte

/-- `filepath.Ext`: the suffix beginning at the final dot (byte 46),
empty when the name has no dot. -/
def fileExt (name : Bytes) : Bytes :=
  let tail := name.reverse.takeWhile (fun b => !(b == 46))
  if tail.length = name.length then [] else 46 :: tail.reverse

/-- `DocumentParser.ValidateFileType`: the lowercased extension must equal
one of the configured allowlist entries. -/
def validateFileType (filename : Bytes) (allowed : List Bytes) :
    Except String Unit :=
  if allowed.any (fun a => a == goToLower (fileExt filename)) then .ok ()
  else .error "file type is not allowed"

/-- The configuration knobs `UploadDocument` reads. -/
structure UploadCfg where
  maxUploadSize : Nat
  allowedFileTypes : List Bytes
  chunkSize : Nat
  chunkOverlap : Nat

/-- The external collaborators of one `UploadDocument` call. -/
structure UploadEnv where
  retrieverNil : Bool
  vecInsertOk : Bool
  indexTimeout : Bool
  sha256Hex : Bytes → Nat
  parseFn : Bytes → Bytes → Except String Bytes

/-- `Service.UploadDocument`: retriever check, KB existence check, file
type validation, size-limited read, SHA-256 dedup probe against
`(hash, knowledge_base_id)`, parse, then one transaction that inserts the
Document row, chunks the text under the index timeout, inserts the
vectors, and increments `doc_count` (`UPDATE ... WHERE id = ?`, aborting
when no row was affected).  Every failure leaves the store unchanged. -/
def uploadDocument (cfg : UploadCfg) (env : UploadEnv) (st : MetaStore)
    (filename : Bytes) (content : Bytes) (kbId userId : Nat) :
    MetaStore × Except String (Document × Nat) :=
  if env.retrieverNil then
    (st, .error "vector database is not available, please try again later")
  else if !(st.kbs.any (fun kb => kb.id == kbId)) then
    (st, .error "knowledge base not found")
  else
    match validateFileType filename cfg.allowedFileTypes with
    | .error e => (st, .error e)
    | .ok _ =>
      let data := content.take cfg.maxUploadSize
      let hash := env.sha256Hex data
      if st.docs.any (fun d => d.hash == hash && d.knowledgeBaseId == kbId) then
        (st, .error "document already exists in this knowledge base")
      else
        match env.parseFn filename data with
        | .error _ => (st, .error "failed to parse document")
        | .ok text =>
          let doc : Document :=
            ⟨st.nextDocId, kbId, filename, data.length, hash, userId⟩
          if env.indexTimeout then (st, .error "document processing timeout")
          else
            match processTextLength cfg.chunkSize cfg.chunkOverlap text with
            | .error _ => (st, .error "failed to process document")
            | .ok chunks =>
              if !env.vecInsertOk then (st, .error "failed to index document")
              else if st.kbs.any (fun kb => kb.id == kbId) then
                ({ kbs := st.kbs.map (fun kb =>
                     if kb.id == kbId then
                       { kb with docCount := kb.docCount + 1 }
                     else kb),
                   docs := st.docs ++ [doc],
                   nextDocId := st.nextDocId + 1 },
                 .ok (doc, chunks.length))
              else (st, .error "knowledge base not found")

/-- The external collaborators of one `DeleteDocument` call:
`retrieverNil` is `s.retriever == nil`; `vecDeleteOk` is the result of
`retriever.DeleteByDocument`, which fails whenever the adapter is
disconnected (`IsConnected() == false`) or the Milvus delete errors. -/
structure DeleteEnv where
  retrieverNil : Bool
  vecDeleteOk : Bool

/-- `Service.DeleteDocument`: load the first Document row with the given
id (`NotFound` otherwise); in one transaction delete the vectors (only
skipped — with a warning — when the retriever handle is nil; a failing
delete aborts the transaction), delete the Document row, and decrement
the owning knowledge base's `doc_count`. -/
def deleteDocument (env : DeleteEnv) (st : MetaStore) (docId : Nat) :
    MetaStore × Except String Unit :=
  match st.docs.find? (fun d => d.id == docId) with
  | none => (st, .error "document not found")
  | some doc =>
    if !env.retrieverNil && !env.vecDeleteOk then
      (st, .error "failed to delete from vector database")
    else
      ({ st with
         docs := st.docs.filter (fun d => !(d.id == docId)),
         kbs := st.kbs.map (fun kb =>
           if kb.id == doc.knowledgeBaseId then
             { kb with docCount := kb.docCount - 1 }
           else kb) },
       .ok ())

/-- One store operation of the C2 claim's sequences. -/
inductive StoreOp where
  | upload (cfg : UploadCfg) (env : UploadEnv) (filename content : Bytes)
      (kbId userId : Nat)
  | delete (env : DeleteEnv) (docId : Nat)

/-- Apply an operation's state effect (errors leave the state as is). -/
def applyOp (st : MetaStore) : StoreOp → MetaStore
  | .upload cfg env f c k u => (uploadDocument cfg env st f c k u).1
  | .delete env d => (deleteDocument env st d).1

/-- `doc_count` accuracy: each knowledge base's counter equals the number
of Document rows referencing it. -/
def docCountAccurate (st : MetaStore) : Prop :=
  ∀ kb ∈ st.kbs, kb.docCount =
    ((st.docs.filter (fun d => d.knowledgeBaseId == kb.id)).length : Int)

/-- The primary-key discipline GORM maintains: document ids are distinct
and below the auto-increment counter. -/
def docIdsOk (st : MetaStore) : Prop :=
  (st.docs.map (fun d => d.id)).Nodup ∧ ∀ d ∈ st.docs, d.id < st.nextDocId

/-! ## Conversation persistence of the chat engine

Source: the chat service (`chat.Service.Chat`,
`saveConversationHistory`, `getOrCreateConversation`) and the streaming
chat handler (`ChatHandler.ChatStream`, `saveStreamConversation`), plus
the Redis conversation keyspace (`SaveConversation`/`GetConversation`,
`internal/db/redis.go`).

Conversations live in Redis under `conversation:{uuid}`; ChatHistory rows
live in the relational store.  The LLM reply of a non-streaming turn and
the UUIDs are external inputs.  Timestamps are irrelevant to the claims
and omitted from the rows. -/

/-- A `models.ChatMessage` (role `user`/`assistant` plus content). -/
structure ChatMessage where
  role : String
  content : Bytes
deriving DecidableEq

/-- A `models.Conversation` body as stored in the conversation cache. -/
structure Conversation where
  id : String
  userId : Nat
  messages : List ChatMessage
deriving DecidableEq

/-- The Redis keyspace `conversation:{id}`; `Set` prepends and `lookup`
takes the most recent binding, modelling overwrite. -/
abbrev ConvCache := List (String × Conversation)

/-- `db.GetConversation`. -/
def getConversation (cache : ConvCache) (convId : String) :
    Option Conversation :=
  cache.lookup convId

/-- `db.SaveConversation`. -/
def saveConversation (cache : ConvCache) (conv : Conversation) : ConvCache :=
  (conv.id, conv) :: cache

/-- A `models.ChatHistory` row (title ← first user message). -/
structure ChatHistory where
  userId : Nat
  conversationId : String
  title : Bytes
deriving DecidableEq

/-- The title computed by `saveConversationHistory` and by
`saveStreamConversation`: `title := msg; if len > 50 { title =
title[:50] + "..." }` — bytes 46 are the ASCII dots. -/
def chatTitle (m : Bytes) : Bytes :=
  if 50 < m.length then m.take 50 ++ [46, 46, 46] else m

/-- `chat.Service.getOrCreateConversation`. -/
def getOrCreateConversation (cache : ConvCache) (convId : String)
    (userId : Nat) : Conversation :=
  match getConversation cache convId with
  | some c => c
  | none => ⟨convId, userId, []⟩

/-- The persistence steps of the non-streaming `chat.Service.Chat`: load
or create the conversation, append the user message and then the
assistant reply (the reply text is an input here — it comes from the
LLM), save the body to the cache, and insert a ChatHistory row when this
was the very first exchange (exactly two messages now exist). -/
def chatPersist (cache : ConvCache) (hist : List ChatHistory)
    (userId : Nat) (message reply : Bytes) (convId : String) :
    ConvCache × List ChatHistory :=
  let conv := getOrCreateConversation cache convId userId
  let conv := { conv with messages :=
    conv.messages ++ [⟨"user", message⟩, ⟨"assistant", reply⟩] }
  let cache := saveConversation cache conv
  let hist := if conv.messages.length = 2 then
    hist ++ [⟨userId, convId, chatTitle message⟩] else hist
  (cache, hist)

/-- `ChatHandler.saveStreamConversation`: reload the conversation from the
cache; when absent, create it, append the *user* message and insert the
ChatHistory row; in both cases append the assistant reply and save.  (An
existing conversation therefore receives only the assistant message.) -/
def saveStreamConversation (cache : ConvCache) (hist : List ChatHistory)
    (userId : Nat) (userMessage assistantReply : Bytes) (convId : String) :
    ConvCache × List ChatHistory :=
  match getConversation cache convId with
  | some conv =>
    let conv := { conv with messages :=
      conv.messages ++ [⟨"assistant", assistantReply⟩] }
    (saveConversation cache conv, hist)
  | none =>
    let conv : Conversation := ⟨convId, userId, [⟨"user", userMessage⟩]⟩
    let hist := hist ++ [⟨userId, convId, chatTitle userMessage⟩]
    let conv := { conv with messages :=
      conv.messages ++ [⟨"assistant", assistantReply⟩] }
    (saveConversation cache conv, hist)

/-- One `reader.Recv()` outcome in the `ChatStream` handler loop:
a message chunk, clean end of stream (`io.EOF`), or a read error (which
includes cancellation on client disconnect). -/
inductive RecvResult where
  | msg (content : Bytes)
  | eof
  | err
deriving DecidableEq

/-- The handler's collection loop: append chunk contents to `fullReply`
until `Recv` returns `io.EOF` or any other error — both `break`. -/
def collectStream : List RecvResult → Bytes
  | [] => []
  | .eof :: _ => []
  | .err :: _ => []
  | .msg c :: rest => c ++ collectStream rest

/-- After the loop, `ChatStream` unconditionally saves the conversation
built from the collected (possibly partial) reply. -/
def chatStreamPersist (cache : ConvCache) (hist : List ChatHistory)
    (userId : Nat) (reqMessage : Bytes) (convId : String)
    (stream : List RecvResult) : ConvCache × List ChatHistory :=
  saveStreamConversation cache hist userId reqMessage
    (collectStream stream) convId

/-! ### Chunker lemmas -/

theorem dropWhile_eq_self_of (p : Nat → Bool) (l : Bytes)
    (h : ∀ b ∈ l, p b = false) : l.dropWhile p = l := by
  cases l with
  | nil => rfl
  | cons a t =>
      rw [List.dropWhile_cons]
      simp [h a (by simp)]

theorem goTrim_eq_self (l : Bytes) (h : ∀ b ∈ l, goIsSpaceByte b = false) :
    goTrim l = l := by
  unfold goTrim
  rw [dropWhile_eq_self_of _ _ h,
      dropWhile_eq_self_of _ _ (by intro b hb; exact h b (List.mem_reverse.mp hb)),
      List.reverse_reverse]

/-- An upper bound on the loop's chunk count: each iteration consumes at
least one byte of the text. -/
theorem splitByLengthLoop_length_le (S O : Nat) (content : Bytes) :
    ∀ k start iter, content.length - start ≤ k →
      (splitByLengthLoop S O content start iter).length ≤
        content.length - start := by
  intro k
  induction k with
  | zero =>
      intro start iter h
      rw [splitByLengthLoop]
      have hge : ¬ start < content.length := by omega
      simp [hge]
  | succ k ih =>
      intro start iter h
      rw [splitByLengthLoop]
      by_cases hlt : start < content.length
      · simp only [dif_pos hlt]
        by_cases hcap : 1000 < iter + 1
        · simp [hcap]
        · simp only [if_neg hcap]
          by_cases hend : content.length ≤ windowEnd S content start
          · simp only [if_pos hend, List.length_cons, List.length_nil]
            omega
          · simp only [if_neg hend, List.length_cons]
            have hnext := goNextStart_gt start (windowEnd S content start) O
            have hrec := ih (goNextStart start (windowEnd S content start) O)
              (iter + 1) (by omega)
            omega
      · simp [hlt]

/-- The iteration cap bounds the loop's chunk count by `1000 - iter`. -/
theorem splitByLengthLoop_length_le_cap (S O : Nat) (content : Bytes) :
    ∀ k start iter, content.length - start ≤ k →
      (splitByLengthLoop S O content start iter).length ≤ 1000 - iter := by
  intro k
  induction k with
  | zero =>
      intro start iter h
      rw [splitByLengthLoop]
      have hge : ¬ start < content.length := by omega
      simp [hge]
  | succ k ih =>
      intro start iter h
      rw [splitByLengthLoop]
      by_cases hlt : start < content.length
      · simp only [dif_pos hlt]
        by_cases hcap : 1000 < iter + 1
        · simp [hcap]
        · simp only [if_neg hcap]
          by_cases hend : content.length ≤ windowEnd S content start
          · simp only [if_pos hend, List.length_cons, List.length_nil]
            omega
          · simp only [if_neg hend, List.length_cons]
            have hnext := goNextStart_gt start (windowEnd S content start) O
            have hrec := ih (goNextStart start (windowEnd S content start) O)
              (iter + 1) (by omega)
            omega
      · simp [hlt]

/-- Before the cap, an iteration always emits at least one chunk. -/
theorem splitByLengthLoop_length_pos (S O : Nat) (content : Bytes)
    (start iter : Nat) (hlt : start < content.length) (hiter : iter ≤ 999) :
    1 ≤ (splitByLengthLoop S O content start iter).length := by
  rw [splitByLengthLoop]
  simp only [dif_pos hlt, if_neg (by omega : ¬ 1000 < iter + 1)]
  by_cases hend : content.length ≤ windowEnd S content start
  · simp [hend]
  · simp [hend]

theorem splitByLength_length_le (S O : Nat) (content : Bytes)
    (hne : content ≠ []) :
    (splitByLength S O content).length ≤ content.length := by
  unfold splitByLength
  have hpos : 1 ≤ content.length := List.length_pos.mpr hne
  by_cases hle : content.length ≤ S
  · simp [hle]; omega
  · simp only [if_neg hle]
    have h := splitByLengthLoop_length_le S O content content.length 0 0 (by omega)
    omega

theorem splitByLength_length_pos (S O : Nat) (content : Bytes)
    (hne : content ≠ []) :
    1 ≤ (splitByLength S O content).length := by
  unfold splitByLength
  have hpos : 1 ≤ content.length := List.length_pos.mpr hne
  by_cases hle : content.length ≤ S
  · simp [hle]
  · simp only [if_neg hle]
    exact splitByLengthLoop_length_pos S O content 0 0 (by omega) (by omega)

theorem splitByLength_length_le_cap (S O : Nat) (content : Bytes) :
    (splitByLength S O content).length ≤ 1000 := by
  unfold splitByLength
  by_cases hle : content.length ≤ S
  · simp [hle]
  · simp only [if_neg hle]
    have h := splitByLengthLoop_length_le_cap S O content content.length 0 0
      (by omega)
    omega

theorem replicate97_no_space (n : Nat) :
    ∀ b ∈ List.replicate n 97, goIsSpaceNl b = false := by
  intro b hb
  have hb' := List.eq_of_mem_replicate hb
  subst hb'
  decide

theorem replicate97_no_ws (n : Nat) :
    ∀ b ∈ List.replicate n 97, goIsSpaceByte b = false := by
  intro b hb
  have hb' := List.eq_of_mem_replicate hb
  subst hb'
  decide

theorem findBoundary_none (content : Bytes)
    (hc : ∀ b ∈ content, goIsSpaceNl b = false) (start stop : Nat) :
    ∀ i, findBoundary content start stop i = none := by
  intro i
  induction i with
  | zero => rfl
  | succ i ih =>
      rw [findBoundary]
      split
      · rw [List.getD_eq_getElem?_getD]
        have hg : goIsSpaceNl (content[i + 1]?.getD 0) = false := by
          rcases h : content[i + 1]? with _ | b
          · decide
          · have h1 : i + 1 < content.length := by
              by_contra hnot
              rw [List.getElem?_eq_none (by omega)] at h
              exact Option.noConfusion h
            have h2 : content[i + 1] = b := by
              rw [List.getElem?_eq_getElem h1] at h
              exact Option.some.inj h
            have hb : b ∈ content := h2 ▸ List.getElem_mem h1
            show goIsSpaceNl b = false
            exact hc b hb
        rw [hg]
        simpa using ih
      · rfl

theorem windowEnd_replicate (n start : Nat) (hlt : start < n) :
    windowEnd 1 (List.replicate n (97 : Nat)) start = start + 1 := by
  unfold windowEnd
  simp only [List.length_replicate]
  have he0 : min (start + 1) n = start + 1 := by omega
  rw [he0]
  by_cases h2 : start + 1 < n
  · simp [h2, findBoundary_none _ (replicate97_no_space n) _ _]
  · simp [h2]

/-- On an all-`'a'` text with `chunk_size = 1`, `overlap = 0`, each
iteration emits the one-byte chunk `['a']` and advances by one, so the loop
yields `min (n - start) (1000 - iter)` chunks: the iteration cap silently
truncates the output once the text is longer than 1000 bytes. -/
theorem splitByLengthLoop_replicate (n : Nat) :
    ∀ k start iter, n - start ≤ k →
      splitByLengthLoop 1 0 (List.replicate n (97 : Nat)) start iter
        = List.replicate (min (n - start) (1000 - iter)) [97] := by
  intro k
  induction k with
  | zero =>
      intro start iter h
      rw [splitByLengthLoop]
      have hge : ¬ start < (List.replicate n (97 : Nat)).length := by
        simp only [List.length_replicate]; omega
      rw [dif_neg hge]
      have : min (n - start) (1000 - iter) = 0 := by omega
      rw [this, List.replicate_zero]
  | succ k ih =>
      intro start iter h
      rw [splitByLengthLoop]
      by_cases hlt : start < n
      · rw [dif_pos (by simpa using hlt)]
        by_cases hcap : 1000 < iter + 1
        · rw [if_pos hcap]
          have : min (n - start) (1000 - iter) = 0 := by omega
          rw [this, List.replicate_zero]
        · rw [if_neg hcap]
          have hwe := windowEnd_replicate n start hlt
          have hchunk :
              goTrim (((List.replicate n (97 : Nat)).drop start).take
                (windowEnd 1 (List.replicate n (97 : Nat)) start - start))
                = [97] := by
            rw [hwe, List.drop_replicate, List.take_replicate]
            have : min (start + 1 - start) (n - start) = 1 := by omega
            rw [this]
            rfl
          by_cases hend : (List.replicate n (97 : Nat)).length ≤
              windowEnd 1 (List.replicate n (97 : Nat)) start
          · rw [if_pos hend, hchunk]
            have hn : n = start + 1 := by
              rw [hwe] at hend
              simp only [List.length_replicate] at hend
              omega
            have : min (n - start) (1000 - iter) = 1 := by omega
            rw [this, List.replicate_one]
          · rw [if_neg hend, hchunk]
            have hlt2 : start + 1 < n := by
              rw [hwe] at hend
              simp only [List.length_replicate] at hend
              omega
            have hns : goNextStart start
                (windowEnd 1 (List.replicate n (97 : Nat)) start) 0
                  = start + 1 := by
              rw [hwe]
              unfold goNextStart
              simp
            rw [hns, ih (start + 1) (iter + 1) (by omega)]
            have : min (n - start) (1000 - iter)
                = min (n - (start + 1)) (1000 - (iter + 1)) + 1 := by omega
            rw [this, List.replicate_succ]
      · rw [dif_neg (by simpa using hlt)]
        have : min (n - start) (1000 - iter) = 0 := by omega
        rw [this, List.replicate_zero]

theorem filter_replicate_true {α : Type} (p : α → Bool) (a : α)
    (hp : p a = true) : ∀ n, List.filter p (List.replicate n a)
      = List.replicate n a := by
  intro n
  induction n with
  | zero => rfl
  | succ n ih => rw [List.replicate_succ, List.filter_cons, if_pos hp, ih]

/-- C3: for every non-empty text and every `chunk_size S ≥ 1` and overlap
`O ≥ 0` (including `O ≥ S`), the length chunker terminates (it is a total
function here) in at most `|text|` iterations — each iteration emits one
chunk, so the chunk count bounds and witnesses the iteration count — and
produces at least one chunk; the next window start is
`max (start + 1) (end - O)`, so the start strictly increases.  In
particular a 100-byte text with `chunk_size = 10`, `overlap = 20`
terminates with at most 100 chunks. -/
theorem c3_chunk_forward_progress (S O : Nat) (content : Bytes)
    (_hS : 1 ≤ S) (hne : content ≠ []) :
    1 ≤ (splitByLength S O content).length ∧
    (splitByLength S O content).length ≤ content.length ∧
    (∀ start e, goNextStart start e O = max (start + 1) (e - O)) ∧
    (∀ start e, start < goNextStart start e O) ∧
    (splitByLength 10 20 (List.replicate 100 97)).length ≤ 100 := by
  refine ⟨splitByLength_length_pos S O content hne,
          splitByLength_length_le S O content hne, ?_, ?_, ?_⟩
  · intro start e
    unfold goNextStart
    rw [Nat.max_def]
    split <;> split <;> omega
  · intro start e
    exact goNextStart_gt start e O
  · have h := splitByLength_length_le 10 20 (List.replicate 100 97)
      (by simp)
    simpa using h

/-- Witness for C3 at `S = 10`, `O = 20` on the 100-byte text of §8/S6. -/
theorem c3_chunk_forward_progress_witness :
    1 ≤ (splitByLength 10 20 (List.replicate 100 97)).length ∧
    (splitByLength 10 20 (List.replicate 100 97)).length ≤
      (List.replicate 100 (97 : Nat)).length ∧
    (∀ start e, goNextStart start e 20 = max (start + 1) (e - 20)) ∧
    (∀ start e, start < goNextStart start e 20) ∧
    (splitByLength 10 20 (List.replicate 100 97)).length ≤ 100 :=
  c3_chunk_forward_progress 10 20 (List.replicate 100 97) (by decide)
    (by simp)

/-- C4 fails on the code: when the iteration cap is exceeded the loop
`break`s and `splitByLength` returns the chunks collected so far as an
ordinary result, and `ProcessText` succeeds on it.  On the 1002-byte
all-`'a'` text with `chunk_size = 1`, `overlap = 0` the loop needs 1002
iterations, hits the cap, and returns a successful, silently truncated
list of 1000 one-byte chunks — not an error. -/
theorem c4_counterexample :
    processTextLength 1 0 (List.replicate 1002 97)
      = .ok (List.replicate 1000 [97]) ∧
    (List.replicate 1000 ([97] : Bytes)).length <
      (List.replicate 1002 (97 : Nat)).length := by
  constructor
  · simp only [processTextLength]
    rw [goTrim_eq_self _ (replicate97_no_ws 1002)]
    have hne' : (List.replicate 1002 (97 : Nat)) ≠ [] :=
      List.length_pos.mp (by rw [List.length_replicate]; omega)
    have hne : (List.replicate 1002 (97 : Nat)).isEmpty = false := by
      rw [List.isEmpty_eq_false]
      exact hne'
    rw [if_neg (by rw [hne]; decide)]
    have hsplit : splitByLength 1 0 (List.replicate 1002 (97 : Nat))
        = List.replicate 1000 [97] := by
      unfold splitByLength
      rw [if_neg (by rw [List.length_replicate]; omega)]
      rw [splitByLengthLoop_replicate 1002 1002 0 0 (by omega)]
      have hmin : min (1002 - 0) (1000 - 0) = 1000 := by decide
      rw [hmin]
    rw [hsplit]
    rw [filter_replicate_true _ _ (by decide)]
  · rw [List.length_replicate, List.length_replicate]
    omega

/-- C4 amended: the 1000-iteration cap never surfaces an error.  On any
input whose trimmed content is non-blank, `ProcessText` (length strategy)
returns a successful chunk list of at most 1000 chunks; inputs needing
more iterations are silently truncated at the cap rather than rejected. -/
theorem c4_amended_cap_truncates (S O : Nat) (content : Bytes)
    (h : (goTrim content).isEmpty = false) :
    ∃ cs, processTextLength S O content = .ok cs ∧ cs.length ≤ 1000 := by
  refine ⟨(splitByLength S O (goTrim content)).filter
    (fun ch => !(goTrim ch).isEmpty), ?_, ?_⟩
  · simp only [processTextLength]
    rw [if_neg (by rw [h]; decide)]
  · calc ((splitByLength S O (goTrim content)).filter
          (fun ch => !(goTrim ch).isEmpty)).length
        ≤ (splitByLength S O (goTrim content)).length :=
          List.length_filter_le _ _
      _ ≤ 1000 := splitByLength_length_le_cap S O (goTrim content)

/-- Witness for the amended C4 on a concrete non-blank input. -/
theorem c4_amended_cap_truncates_witness :
    ∃ cs, processTextLength 5 2 [104, 101, 108, 108, 111] = .ok cs ∧
      cs.length ≤ 1000 :=
  c4_amended_cap_truncates 5 2 [104, 101, 108, 108, 111] (by decide)

/-! ### Embedding lemmas -/

theorem lookup_mem_val (k : Nat) (v : Vec) :
    ∀ (l : EmbCache), l.lookup k = some v → ∃ k', (k', v) ∈ l := by
  intro l
  induction l with
  | nil => intro h; cases h
  | cons p t ih =>
      obtain ⟨k1, v1⟩ := p
      intro h
      simp only [List.lookup] at h
      rcases hk : (k == k1) with _ | _
      · rw [hk] at h
        obtain ⟨k', hmem⟩ := ih h
        exact ⟨k', List.mem_cons_of_mem _ hmem⟩
      · rw [hk] at h
        injection h with h
        subst h
        exact ⟨k1, List.mem_cons_self _ _⟩

theorem generateEmbedding_ok_length (env : EmbedEnv) (text : Bytes)
    (v : Vec) (h : generateEmbedding env text = .ok v) :
    v.length = env.dimension := by
  unfold generateEmbedding at h
  split at h
  · cases h
  next u hsvc =>
    split at h
    · cases h
    next hlen =>
      injection h with h
      subst h
      omega

theorem embedText_ok_length (env : EmbedEnv) (cache : EmbCache)
    (text : Bytes)
    (hwf : ∀ p ∈ cache, p.2.length = env.dimension) :
    ∀ v, (embedText env cache text).2 = .ok v →
      v.length = env.dimension := by
  intro v hok
  unfold embedText at hok
  split at hok
  next w heq =>
    dsimp only at hok
    injection hok with hok
    rw [← hok]
    split at heq
    · obtain ⟨k', hmem⟩ := lookup_mem_val (hashString text) w cache heq
      exact hwf (k', w) hmem
    · cases heq
  next heq =>
    split at hok
    next e hgen => cases hok
    next w hgen =>
      dsimp only at hok
      injection hok with hok
      rw [← hok]
      exact generateEmbedding_ok_length env text w hgen

theorem embedText_preserves_wf (env : EmbedEnv) (cache : EmbCache)
    (text : Bytes)
    (hwf : ∀ p ∈ cache, p.2.length = env.dimension) :
    ∀ p ∈ (embedText env cache text).1, p.2.length = env.dimension := by
  intro p hp
  unfold embedText at hp
  split at hp
  next w heq => exact hwf p hp
  next heq =>
    split at hp
    next e hgen => exact hwf p hp
    next w hgen =>
      simp only at hp
      split at hp
      · unfold cacheEmbedding at hp
        rcases List.mem_cons.mp hp with h | h
        · subst h
          exact generateEmbedding_ok_length env text w hgen
        · exact hwf p h
      · exact hwf p hp

theorem embedTexts_ok_length (env : EmbedEnv) :
    ∀ (texts : List Bytes) (cache : EmbCache),
      (∀ p ∈ cache, p.2.length = env.dimension) →
      ∀ vs, (embedTexts env cache texts).2 = .ok vs →
        ∀ v ∈ vs, v.length = env.dimension := by
  intro texts
  induction texts with
  | nil =>
      intro cache _ vs hok v hv
      unfold embedTexts at hok
      dsimp only at hok
      injection hok with hok
      subst hok
      cases hv
  | cons t ts ih =>
      intro cache hwf vs hok v hv
      unfold embedTexts at hok
      rcases h1 : embedText env cache t with ⟨cache', r1⟩
      rw [h1] at hok
      cases r1 with
      | error e => cases hok
      | ok w =>
          dsimp only at hok
          rcases h2 : embedTexts env cache' ts with ⟨cache'', r2⟩
          rw [h2] at hok
          cases r2 with
          | error e => cases hok
          | ok ws =>
              dsimp only at hok
              injection hok with hok
              subst hok
              have hw : w.length = env.dimension := by
                have := embedText_ok_length env cache t hwf w
                rw [h1] at this
                exact this rfl
              have hwf' : ∀ p ∈ cache', p.2.length = env.dimension := by
                have := embedText_preserves_wf env cache t hwf
                rw [h1] at this
                exact this
              rcases List.mem_cons.mp hv with h | h
              · subst h; exact hw
              · have := ih cache' hwf' ws
                rw [h2] at this
                exact this rfl v h

/-- C5 fails on the code: the cache path of `EmbedText` performs no
dimension check, so a cached vector of the wrong length is returned as a
success.  With configured dimension 3 and a cache entry of length 2 under
the key of text `"A"`, `EmbedText` returns the 2-element vector with no
`DimensionMismatch` error. -/
theorem c5_counterexample :
    (embedText ⟨3, true, fun _ => none⟩
      [(hashString [65], [1, 2])] [65]).2 = .ok [1, 2] ∧
    ¬ (([1, 2] : Vec).length = 3) := by
  constructor
  · rfl
  · decide

/-- C5 amended: the dimension guard protects every freshly generated
embedding — `generateEmbedding` only returns vectors of the configured
length — and therefore every vector `EmbedText`/`EmbedTexts` returns
*provided every cache entry already has the configured length* (which the
code's own writes maintain, but which it never re-validates on reads). -/
theorem c5_amended_dimension (env : EmbedEnv) (cache : EmbCache)
    (text : Bytes)
    (hwf : ∀ p ∈ cache, p.2.length = env.dimension) :
    (∀ v, generateEmbedding env text = .ok v → v.length = env.dimension) ∧
    (∀ v, (embedText env cache text).2 = .ok v →
      v.length = env.dimension) ∧
    (∀ p ∈ (embedText env cache text).1, p.2.length = env.dimension) ∧
    (∀ texts vs, (embedTexts env cache texts).2 = .ok vs →
      ∀ v ∈ vs, v.length = env.dimension) :=
  ⟨fun v h => generateEmbedding_ok_length env text v h,
   embedText_ok_length env cache text hwf,
   embedText_preserves_wf env cache text hwf,
   fun texts vs hok v hv =>
     embedTexts_ok_length env texts cache hwf vs hok v hv⟩

/-- Witness for the amended C5: dimension 2, an empty cache, and a service
returning a 2-element vector. -/
theorem c5_amended_dimension_witness :
    (∀ v, generateEmbedding ⟨2, true, fun _ => some [4, 5]⟩ [65] = .ok v →
      v.length = 2) ∧
    (∀ v, (embedText ⟨2, true, fun _ => some [4, 5]⟩ [] [65]).2 = .ok v →
      v.length = 2) ∧
    (∀ p ∈ (embedText ⟨2, true, fun _ => some [4, 5]⟩ [] [65]).1,
      p.2.length = 2) ∧
    (∀ texts vs,
      (embedTexts ⟨2, true, fun _ => some [4, 5]⟩ [] texts).2 = .ok vs →
      ∀ v ∈ vs, v.length = 2) :=
  c5_amended_dimension ⟨2, true, fun _ => some [4, 5]⟩ [] [65]
    (by intro p hp; cases hp)

/-- C10: the embedding cache key is the 64-bit polynomial `h*31 + byte`
hash of the text alone, so the distinct texts `"Aa"` (bytes 65, 97) and
`"BB"` (bytes 66, 66) share a key; with caching enabled, embedding `"Aa"`
first and then `"BB"` serves `"Aa"`'s vector for `"BB"` even though the
service would return a different vector for `"BB"`. -/
theorem c10_cache_key_collision :
    hashString [65, 97] = hashString [66, 66] ∧
    ([65, 97] : Bytes) ≠ [66, 66] ∧
    (embedText ⟨1, true, fun t => if t = [65, 97] then some [7] else some [9]⟩
      (embedText ⟨1, true, fun t => if t = [65, 97] then some [7] else some [9]⟩
        [] [65, 97]).1 [66, 66]).2 = .ok [7] ∧
    (if ([66, 66] : Bytes) = [65, 97] then some [7] else some ([9] : Vec))
      = some [9] ∧
    ([9] : Vec) ≠ [7] := by
  refine ⟨by decide, by decide, by rfl, by decide, by decide⟩

/-! ### Metadata store lemmas -/

theorem countP_partition (l : List Document) (q p : Document → Bool) :
    l.countP (fun a => p a && !(q a)) + l.countP (fun a => p a && q a)
      = l.countP p := by
  induction l with
  | nil => rfl
  | cons a t ih =>
      rw [List.countP_cons, List.countP_cons, List.countP_cons]
      by_cases hq : q a <;> by_cases hp : p a <;>
        simp [hq, hp] <;> omega

theorem filter_partition_length (l : List Document) (q p : Document → Bool) :
    ((l.filter (fun d => !(q d))).filter p).length
      + ((l.filter q).filter p).length = (l.filter p).length := by
  rw [← List.countP_eq_length_filter, ← List.countP_eq_length_filter,
      ← List.countP_eq_length_filter, List.countP_filter,
      List.countP_filter]
  exact countP_partition l q p

theorem filter_id_single (l : List Document) (doc : Document)
    (hmem : doc ∈ l) (hnd : (l.map (fun d => d.id)).Nodup) :
    l.filter (fun d => d.id == doc.id) = [doc] := by
  induction l with
  | nil => cases hmem
  | cons a t ih =>
      rw [List.map_cons, List.nodup_cons] at hnd
      obtain ⟨hna, hndt⟩ := hnd
      rcases List.mem_cons.mp hmem with rfl | hmt
      · rw [List.filter_cons, if_pos (by simp)]
        have hnil : t.filter (fun d => d.id == doc.id) = [] := by
          rw [List.filter_eq_nil_iff]
          intro d hd hdd
          rw [beq_iff_eq] at hdd
          exact hna (hdd ▸ List.mem_map_of_mem _ hd)
        rw [hnil]
      · have hne : ¬((a.id == doc.id) = true) := by
          rw [beq_iff_eq]
          intro h
          exact hna (h ▸ List.mem_map_of_mem _ hmt)
        rw [List.filter_cons, if_neg hne]
        exact ih hmt hndt

/-- A successful upload appends the Document row and bumps the counter of
every knowledge base whose id matches; both store invariants survive. -/
theorem upload_success_inv (st : MetaStore) (doc : Document) (k : Nat)
    (hdk : doc.knowledgeBaseId = k) (hid : doc.id = st.nextDocId)
    (hacc : docCountAccurate st) (hids : docIdsOk st) :
    docCountAccurate
      ⟨st.kbs.map (fun kb => if kb.id == k then
          { kb with docCount := kb.docCount + 1 } else kb),
        st.docs ++ [doc], st.nextDocId + 1⟩ ∧
    docIdsOk
      ⟨st.kbs.map (fun kb => if kb.id == k then
          { kb with docCount := kb.docCount + 1 } else kb),
        st.docs ++ [doc], st.nextDocId + 1⟩ := by
  constructor
  · intro kb' hkb'
    rw [List.mem_map] at hkb'
    obtain ⟨kb, hkb, hbump⟩ := hkb'
    have hc := hacc kb hkb
    by_cases hcond : (kb.id == k) = true
    · rw [if_pos hcond] at hbump
      subst hbump
      have hkid : kb.id = k := by rwa [beq_iff_eq] at hcond
      dsimp only
      rw [List.filter_append, List.length_append, List.filter_cons,
        if_pos (by rw [beq_iff_eq, hdk, hkid]), List.filter_nil]
      simp only [List.length_cons, List.length_nil]
      omega
    · rw [if_neg hcond] at hbump
      subst hbump
      have hkid : ¬ kb.id = k := fun h => hcond (by rwa [beq_iff_eq])
      rw [List.filter_append, List.length_append, List.filter_cons,
        if_neg (by rw [beq_iff_eq, hdk]; exact fun h => hkid h.symm),
        List.filter_nil]
      simp only [List.length_nil]
      omega
  · obtain ⟨hnd, hbound⟩ := hids
    constructor
    · dsimp only
      rw [List.map_append, List.map_cons, List.map_nil, hid,
        List.nodup_append]
      refine ⟨hnd, List.nodup_singleton _, ?_⟩
      intro x hx hx'
      rw [List.mem_singleton] at hx'
      subst hx'
      rw [List.mem_map] at hx
      obtain ⟨d, hd, hdid⟩ := hx
      exact absurd hdid (Nat.ne_of_lt (hbound d hd))
    · intro d hd
      rcases List.mem_append.mp hd with h | h
      · exact Nat.lt_succ_of_lt (hbound d h)
      · rw [List.mem_singleton] at h
        subst h
        rw [hid]
        exact Nat.lt_succ_self _

theorem upload_preserves_inv (cfg : UploadCfg) (env : UploadEnv)
    (st : MetaStore) (f c : Bytes) (k u : Nat)
    (hacc : docCountAccurate st) (hids : docIdsOk st) :
    docCountAccurate (uploadDocument cfg env st f c k u).1 ∧
    docIdsOk (uploadDocument cfg env st f c k u).1 := by
  simp only [uploadDocument]
  split
  · exact ⟨hacc, hids⟩
  split
  · exact ⟨hacc, hids⟩
  split
  · exact ⟨hacc, hids⟩
  split
  · exact ⟨hacc, hids⟩
  split
  · exact ⟨hacc, hids⟩
  split
  · exact ⟨hacc, hids⟩
  split
  · exact ⟨hacc, hids⟩
  split
  · exact ⟨hacc, hids⟩
  split
  case isFalse => exact ⟨hacc, hids⟩
  case isTrue =>
    exact upload_success_inv st
      ⟨st.nextDocId, k, f, (c.take cfg.maxUploadSize).length,
        env.sha256Hex (c.take cfg.maxUploadSize), u⟩ k rfl rfl hacc hids

/-- A successful delete removes exactly the found Document row and
decrements the counter of every knowledge base whose id matches the row
`knowledge_base_id`; both store invariants survive. -/
theorem delete_success_inv (st : MetaStore) (doc : Document) (docId : Nat)
    (hdid : doc.id = docId) (hmem : doc ∈ st.docs)
    (hacc : docCountAccurate st) (hids : docIdsOk st) :
    docCountAccurate
      ⟨st.kbs.map (fun kb => if kb.id == doc.knowledgeBaseId then
          { kb with docCount := kb.docCount - 1 } else kb),
        st.docs.filter (fun d => !(d.id == docId)), st.nextDocId⟩ ∧
    docIdsOk
      ⟨st.kbs.map (fun kb => if kb.id == doc.knowledgeBaseId then
          { kb with docCount := kb.docCount - 1 } else kb),
        st.docs.filter (fun d => !(d.id == docId)), st.nextDocId⟩ := by
  obtain ⟨hnd, hbound⟩ := hids
  have hq : (fun d : Document => d.id == docId)
      = (fun d : Document => d.id == doc.id) := by
    funext d
    rw [hdid]
  constructor
  · intro kb' hkb'
    rw [List.mem_map] at hkb'
    obtain ⟨kb, hkb, hdec⟩ := hkb'
    have hc := hacc kb hkb
    have hpart := filter_partition_length st.docs
      (fun d => d.id == docId)
      (fun d => d.knowledgeBaseId == kb.id)
    have hsingle : st.docs.filter (fun d => d.id == docId) = [doc] := by
      rw [hq]
      exact filter_id_single st.docs doc hmem hnd
    rw [hsingle, List.filter_cons, List.filter_nil] at hpart
    by_cases hcond : (kb.id == doc.knowledgeBaseId) = true
    · rw [if_pos hcond] at hdec
      subst hdec
      have hkid : kb.id = doc.knowledgeBaseId := by
        rwa [beq_iff_eq] at hcond
      rw [if_pos (by rw [beq_iff_eq, hkid])] at hpart
      show kb.docCount - 1 =
        (((st.docs.filter (fun d => !(d.id == docId))).filter
          (fun d => d.knowledgeBaseId == kb.id)).length : Int)
      simp only [List.length_cons, List.length_nil] at hpart
      omega
    · rw [if_neg hcond] at hdec
      subst hdec
      have hkid : ¬ kb.id = doc.knowledgeBaseId :=
        fun h => hcond (by rwa [beq_iff_eq])
      rw [if_neg (by rw [beq_iff_eq]; exact fun h => hkid h.symm)] at hpart
      show kb.docCount =
        (((st.docs.filter (fun d => !(d.id == docId))).filter
          (fun d => d.knowledgeBaseId == kb.id)).length : Int)
      simp only [List.length_nil] at hpart
      omega
  · constructor
    · exact List.Nodup.sublist
        (List.Sublist.map _ (List.filter_sublist _)) hnd
    · intro d hd
      exact hbound d (List.mem_of_mem_filter hd)

theorem delete_preserves_inv (env : DeleteEnv) (st : MetaStore)
    (docId : Nat)
    (hacc : docCountAccurate st) (hids : docIdsOk st) :
    docCountAccurate (deleteDocument env st docId).1 ∧
    docIdsOk (deleteDocument env st docId).1 := by
  simp only [deleteDocument]
  split
  · exact ⟨hacc, hids⟩
  next doc hfind =>
    split
    · exact ⟨hacc, hids⟩
    · have hmem : doc ∈ st.docs := List.mem_of_find?_eq_some hfind
      have hdid : doc.id = docId := by
        have := List.find?_some hfind
        rwa [beq_iff_eq] at this
      exact delete_success_inv st doc docId hdid hmem hacc hids

/-- Every error branch of `UploadDocument` leaves the store unchanged
(the transaction rolls back); otherwise the call returned a document. -/
theorem upload_state_cases (cfg : UploadCfg) (env : UploadEnv)
    (st : MetaStore) (f c : Bytes) (k u : Nat) :
    (uploadDocument cfg env st f c k u).1 = st ∨
    ∃ d n, (uploadDocument cfg env st f c k u).2 = .ok (d, n) := by
  simp only [uploadDocument]
  split
  · exact .inl rfl
  split
  · exact .inl rfl
  split
  · exact .inl rfl
  split
  · exact .inl rfl
  split
  · exact .inl rfl
  split
  · exact .inl rfl
  split
  · exact .inl rfl
  split
  · exact .inl rfl
  split
  · exact .inr ⟨_, _, rfl⟩
  · exact .inl rfl

/-- Every error branch of `DeleteDocument` leaves the store unchanged. -/
theorem delete_state_cases (env : DeleteEnv) (st : MetaStore) (docId : Nat) :
    (deleteDocument env st docId).1 = st ∨
    (deleteDocument env st docId).2 = .ok () := by
  simp only [deleteDocument]
  split
  · exact .inl rfl
  split
  · exact .inl rfl
  · exact .inr rfl

theorem inv_foldl (ops : List StoreOp) :
    ∀ st : MetaStore, docCountAccurate st → docIdsOk st →
      docCountAccurate (ops.foldl applyOp st) ∧
      docIdsOk (ops.foldl applyOp st) := by
  induction ops with
  | nil => intro st hacc hids; exact ⟨hacc, hids⟩
  | cons op t ih =>
      intro st hacc hids
      rw [List.foldl_cons]
      cases op with
      | upload cfg env f c k u =>
          obtain ⟨h1, h2⟩ := upload_preserves_inv cfg env st f c k u hacc hids
          exact ih _ h1 h2
      | delete env d =>
          obtain ⟨h1, h2⟩ := delete_preserves_inv env st d hacc hids
          exact ih _ h1 h2

/-- C1: when the pre-checks hold (retriever available, KB present, file
type allowed) and a Document with the same content hash already exists in
the same knowledge base, `UploadDocument` fails with the `Duplicate`
error message `"document already exists in this knowledge base"` and
leaves the metadata store unchanged: no Document row is inserted and no
`doc_count` changes. -/
theorem c1_duplicate_rejected (cfg : UploadCfg) (env : UploadEnv)
    (st : MetaStore) (filename content : Bytes) (kbId userId : Nat)
    (hret : env.retrieverNil = false)
    (hkb : st.kbs.any (fun kb => kb.id == kbId) = true)
    (hft : validateFileType filename cfg.allowedFileTypes = .ok ())
    (hsize : content.length ≤ cfg.maxUploadSize)
    (hdup : ∃ d ∈ st.docs,
      d.hash = env.sha256Hex content ∧ d.knowledgeBaseId = kbId) :
    uploadDocument cfg env st filename content kbId userId
      = (st, .error "document already exists in this knowledge base") := by
  have htake : content.take cfg.maxUploadSize = content :=
    List.take_of_length_le hsize
  have hany : st.docs.any (fun d =>
      d.hash == env.sha256Hex (content.take cfg.maxUploadSize) &&
      d.knowledgeBaseId == kbId) = true := by
    rw [htake, List.any_eq_true]
    obtain ⟨d, hd, h1, h2⟩ := hdup
    exact ⟨d, hd, by simp [h1, h2]⟩
  simp only [uploadDocument, hret, hkb, hft, hany, Bool.not_true,
    Bool.false_eq_true, if_false, if_true]

/-- Witness for C1: a store holding one knowledge base (id 1, doc_count 1)
and one `.txt` document whose hash collides with the new upload. -/
theorem c1_duplicate_rejected_witness :
    uploadDocument ⟨100, [[46, 116, 120, 116]], 500, 50⟩
      ⟨false, true, false, fun _ => 42, fun _ b => .ok b⟩
      ⟨[⟨1, 1⟩], [⟨1, 1, [97, 46, 116, 120, 116], 2, 42, 7⟩], 2⟩
      [98, 46, 116, 120, 116] [104, 105] 1 9
      = (⟨[⟨1, 1⟩], [⟨1, 1, [97, 46, 116, 120, 116], 2, 42, 7⟩], 2⟩,
         .error "document already exists in this knowledge base") :=
  c1_duplicate_rejected _ _ _ _ _ _ _ rfl (by decide) rfl (by decide)
    ⟨⟨1, 1, [97, 46, 116, 120, 116], 2, 42, 7⟩, by decide, by decide,
      by decide⟩

/-- C2: starting from a store whose counters are accurate (and whose
document ids obey GORM's primary-key discipline), after any sequence of
`UploadDocument` / `DeleteDocument` operations every knowledge base's
`doc_count` equals the number of Document rows referencing it; and since
the counter update shares the transaction with the row insert/delete, an
operation that returns an error changes nothing. -/
theorem c2_doc_count_accuracy (st : MetaStore)
    (hacc : docCountAccurate st) (hids : docIdsOk st) :
    (∀ ops : List StoreOp, docCountAccurate (ops.foldl applyOp st)) ∧
    (∀ cfg env f c k u e, (uploadDocument cfg env st f c k u).2 = .error e →
      (uploadDocument cfg env st f c k u).1 = st) ∧
    (∀ env d e, (deleteDocument env st d).2 = .error e →
      (deleteDocument env st d).1 = st) := by
  refine ⟨fun ops => (inv_foldl ops st hacc hids).1, ?_, ?_⟩
  · intro cfg env f c k u e he
    rcases upload_state_cases cfg env st f c k u with h | ⟨d, n, h⟩
    · exact h
    · rw [he] at h
      cases h
  · intro env d e he
    rcases delete_state_cases env st d with h | h
    · exact h
    · rw [he] at h
      cases h

/-- Witness for C2: one knowledge base with id 1 and an accurate zero
counter over an empty document table. -/
theorem c2_doc_count_accuracy_witness :
    (∀ ops : List StoreOp,
      docCountAccurate (ops.foldl applyOp ⟨[⟨1, 0⟩], [], 1⟩)) ∧
    (∀ cfg env f c k u e,
      (uploadDocument cfg env ⟨[⟨1, 0⟩], [], 1⟩ f c k u).2 = .error e →
      (uploadDocument cfg env ⟨[⟨1, 0⟩], [], 1⟩ f c k u).1
        = ⟨[⟨1, 0⟩], [], 1⟩) ∧
    (∀ env d e, (deleteDocument env ⟨[⟨1, 0⟩], [], 1⟩ d).2 = .error e →
      (deleteDocument env ⟨[⟨1, 0⟩], [], 1⟩ d).1 = ⟨[⟨1, 0⟩], [], 1⟩) :=
  c2_doc_count_accuracy ⟨[⟨1, 0⟩], [], 1⟩
    (by intro kb hkb; rw [List.mem_singleton] at hkb; subst hkb; rfl)
    ⟨List.nodup_nil, by intro d hd; cases hd⟩

/-- C6 fails on the code: with an existing document, a non-nil retriever
whose `DeleteByDocument` fails (e.g. the adapter is disconnected),
`DeleteDocument` aborts with an error and deletes nothing — the
vector-store deletion is not best-effort on this path; the row survives
and `doc_count` is unchanged. -/
theorem c6_counterexample :
    deleteDocument ⟨false, false⟩
      ⟨[⟨1, 1⟩], [⟨1, 1, [97, 46, 116, 120, 116], 2, 42, 7⟩], 2⟩ 1
      = (⟨[⟨1, 1⟩], [⟨1, 1, [97, 46, 116, 120, 116], 2, 42, 7⟩], 2⟩,
         .error "failed to delete from vector database") ∧
    ((deleteDocument ⟨false, false⟩
      ⟨[⟨1, 1⟩], [⟨1, 1, [97, 46, 116, 120, 116], 2, 42, 7⟩], 2⟩ 1).1.docs.any
        (fun d => d.id == 1)) = true := by
  constructor
  · rfl
  · rfl

/-- C6 amended: the vector-store deletion is skipped (logged and
continued) only when the retriever handle is `nil`; when a retriever
exists, success of its delete — or a nil handle — lets the transaction
delete the Document row and decrement the owner's `doc_count`, while a
failing vector delete (e.g. disconnected adapter) aborts the whole
transaction with an error and leaves the store unchanged. -/
theorem c6_amended_delete_best_effort (env : DeleteEnv) (st : MetaStore)
    (docId : Nat) (doc : Document)
    (hfind : st.docs.find? (fun d => d.id == docId) = some doc) :
    (env.retrieverNil = true ∨ env.vecDeleteOk = true →
      deleteDocument env st docId
        = (⟨st.kbs.map (fun kb => if kb.id == doc.knowledgeBaseId then
              { kb with docCount := kb.docCount - 1 } else kb),
            st.docs.filter (fun d => !(d.id == docId)), st.nextDocId⟩,
           .ok ())) ∧
    (env.retrieverNil = false → env.vecDeleteOk = false →
      deleteDocument env st docId
        = (st, .error "failed to delete from vector database")) := by
  constructor
  · intro hok
    simp only [deleteDocument, hfind]
    rw [if_neg]
    rcases hok with h | h <;> simp [h]
  · intro h1 h2
    simp only [deleteDocument, hfind]
    rw [if_pos]
    simp [h1, h2]

/-- Witness for the amended C6: both branches at concrete stores — a nil
retriever deletes the row; a failing vector delete aborts. -/
theorem c6_amended_delete_best_effort_witness :
    ((⟨true, false⟩ : DeleteEnv).retrieverNil = true ∨
      (⟨true, false⟩ : DeleteEnv).vecDeleteOk = true →
      deleteDocument ⟨true, false⟩
        ⟨[⟨1, 1⟩], [⟨1, 1, [97, 46, 116, 120, 116], 2, 42, 7⟩], 2⟩ 1
        = (⟨[⟨1, 0⟩], [], 2⟩, .ok ())) ∧
    ((⟨true, false⟩ : DeleteEnv).retrieverNil = false →
      (⟨true, false⟩ : DeleteEnv).vecDeleteOk = false →
      deleteDocument ⟨true, false⟩
        ⟨[⟨1, 1⟩], [⟨1, 1, [97, 46, 116, 120, 116], 2, 42, 7⟩], 2⟩ 1
        = (⟨[⟨1, 1⟩], [⟨1, 1, [97, 46, 116, 120, 116], 2, 42, 7⟩], 2⟩,
           .error "failed to delete from vector database")) :=
  c6_amended_delete_best_effort ⟨true, false⟩
    ⟨[⟨1, 1⟩], [⟨1, 1, [97, 46, 116, 120, 116], 2, 42, 7⟩], 2⟩ 1
    ⟨1, 1, [97, 46, 116, 120, 116], 2, 42, 7⟩ (by decide)

/-! ### Chat persistence lemmas -/

theorem getConversation_save (cache : ConvCache) (conv : Conversation)
    (convId : String) (h : conv.id = convId) :
    getConversation (saveConversation cache conv) convId = some conv := by
  unfold getConversation saveConversation
  simp [List.lookup, h]

theorem collectStream_partial (pre : List Bytes) (rest : List RecvResult) :
    collectStream ((pre.map RecvResult.msg) ++ .err :: rest)
      = pre.foldr (· ++ ·) [] := by
  induction pre with
  | nil => rfl
  | cons c t ih =>
      rw [List.map_cons, List.cons_append, List.foldr_cons]
      unfold collectStream
      rw [ih]

/-- C7 fails on the code: when the stream aborts mid-turn (client
disconnect or a read error), the `ChatStream` handler `break`s out of the
loop and still calls `saveStreamConversation` with the partial buffered
tokens — here a fresh conversation whose stream delivered `"Hel"` and
then an error is persisted with the partial assistant message, and the
ChatHistory row is inserted. -/
theorem c7_counterexample :
    getConversation
      (chatStreamPersist [] [] 1 [104, 105] "c"
        [.msg [72, 101, 108], .err]).1 "c"
      = some ⟨"c", 1, [⟨"user", [104, 105]⟩,
          ⟨"assistant", [72, 101, 108]⟩]⟩ ∧
    (chatStreamPersist [] [] 1 [104, 105] "c"
        [.msg [72, 101, 108], .err]).2
      = [⟨1, "c", [104, 105]⟩] :=
  ⟨rfl, rfl⟩

/-- C7 amended: the handler persists the conversation after *any* stream
termination, clean or aborted; for a stream that errors out after a
prefix of tokens, the stored assistant message is exactly the
concatenation of that prefix (partial output is saved, not discarded). -/
theorem c7_amended_partial_persisted (cache : ConvCache)
    (hist : List ChatHistory) (uId : Nat) (reqMsg : Bytes) (convId : String)
    (pre : List Bytes) (rest : List RecvResult) :
    (getConversation cache convId = none →
      getConversation
        (chatStreamPersist cache hist uId reqMsg convId
          ((pre.map RecvResult.msg) ++ .err :: rest)).1 convId
        = some ⟨convId, uId, [⟨"user", reqMsg⟩,
            ⟨"assistant", pre.foldr (· ++ ·) []⟩]⟩) ∧
    (∀ conv, getConversation cache convId = some conv → conv.id = convId →
      getConversation
        (chatStreamPersist cache hist uId reqMsg convId
          ((pre.map RecvResult.msg) ++ .err :: rest)).1 convId
        = some { conv with messages :=
            conv.messages ++ [⟨"assistant", pre.foldr (· ++ ·) []⟩] }) := by
  constructor
  · intro hnone
    unfold chatStreamPersist saveStreamConversation
    rw [hnone, collectStream_partial]
    exact getConversation_save _ _ _ rfl
  · intro conv hsome hid
    unfold chatStreamPersist saveStreamConversation
    rw [hsome, collectStream_partial]
    exact getConversation_save _ _ _ hid

/-- Witness for the amended C7 at a concrete aborted stream. -/
theorem c7_amended_partial_persisted_witness :
    (getConversation ([] : ConvCache) "c" = none →
      getConversation
        (chatStreamPersist [] [] 1 [104] "c"
          (([[72]].map RecvResult.msg) ++ .err :: [])).1 "c"
        = some ⟨"c", 1, [⟨"user", [104]⟩,
            ⟨"assistant", [[72]].foldr (· ++ ·) []⟩]⟩) ∧
    (∀ conv, getConversation ([] : ConvCache) "c" = some conv →
      conv.id = "c" →
      getConversation
        (chatStreamPersist [] [] 1 [104] "c"
          (([[72]].map RecvResult.msg) ++ .err :: [])).1 "c"
        = some { conv with messages :=
            conv.messages ++ [⟨"assistant", [[72]].foldr (· ++ ·) []⟩] }) :=
  c7_amended_partial_persisted [] [] 1 [104] "c" [[72]] []

/-- C8 fails on the code: a successful streaming turn on an
already-existing conversation persists only the assistant message.
`saveStreamConversation` reloads the conversation from the cache (where
the in-memory user append of `ChatStream` was never saved) and appends
the user message only in the conversation-absent branch, so the stored
sequence gains one assistant message instead of the (user, assistant)
pair. -/
theorem c8_counterexample :
    getConversation
      (saveStreamConversation
        [("c", ⟨"c", 1, [⟨"user", [104, 105]⟩, ⟨"assistant", [121, 111]⟩]⟩)]
        [] 1 [113] [97] "c").1 "c"
      = some ⟨"c", 1, [⟨"user", [104, 105]⟩, ⟨"assistant", [121, 111]⟩,
          ⟨"assistant", [97]⟩]⟩ ∧
    ([⟨"user", [104, 105]⟩, ⟨"assistant", [121, 111]⟩,
        ⟨"assistant", [97]⟩] : List ChatMessage)
      ≠ [⟨"user", [104, 105]⟩, ⟨"assistant", [121, 111]⟩,
          ⟨"user", [113]⟩, ⟨"assistant", [97]⟩] :=
  ⟨rfl, by decide⟩

/-- C8 amended: the non-streaming `Chat` appends the (user, assistant)
pair to the previous sequence, and a *first* streaming turn creates the
conversation as `[user, assistant]`; but a streaming turn on an existing
conversation appends only the assistant message — the turn's user message
is never persisted on that path. -/
theorem c8_amended_append_pair (cache : ConvCache) (hist : List ChatHistory)
    (uId : Nat) (m r : Bytes) (cid : String) :
    (∀ conv, getConversation cache cid = some conv → conv.id = cid →
      getConversation (chatPersist cache hist uId m r cid).1 cid
        = some { conv with messages := conv.messages ++
            [⟨"user", m⟩, ⟨"assistant", r⟩] }) ∧
    (getConversation cache cid = none →
      getConversation (chatPersist cache hist uId m r cid).1 cid
        = some ⟨cid, uId, [⟨"user", m⟩, ⟨"assistant", r⟩]⟩) ∧
    (getConversation cache cid = none →
      getConversation (saveStreamConversation cache hist uId m r cid).1 cid
        = some ⟨cid, uId, [⟨"user", m⟩, ⟨"assistant", r⟩]⟩) ∧
    (∀ conv, getConversation cache cid = some conv → conv.id = cid →
      getConversation (saveStreamConversation cache hist uId m r cid).1 cid
        = some { conv with messages := conv.messages ++
            [⟨"assistant", r⟩] }) := by
  refine ⟨?_, ?_, ?_, ?_⟩
  · intro conv hsome hid
    unfold chatPersist getOrCreateConversation
    rw [hsome]
    exact getConversation_save _ _ _ hid
  · intro hnone
    unfold chatPersist getOrCreateConversation
    rw [hnone]
    exact getConversation_save _ _ _ rfl
  · intro hnone
    unfold saveStreamConversation
    rw [hnone]
    exact getConversation_save _ _ _ rfl
  · intro conv hsome hid
    unfold saveStreamConversation
    rw [hsome]
    exact getConversation_save _ _ _ hid

/-- Witness for the amended C8 at a one-conversation cache. -/
theorem c8_amended_append_pair_witness :
    (∀ conv, getConversation
        [("c", ⟨"c", 1, [⟨"user", [104]⟩, ⟨"assistant", [121]⟩]⟩)] "c"
        = some conv → conv.id = "c" →
      getConversation (chatPersist
        [("c", ⟨"c", 1, [⟨"user", [104]⟩, ⟨"assistant", [121]⟩]⟩)]
        [] 1 [113] [97] "c").1 "c"
        = some { conv with messages := conv.messages ++
            [⟨"user", [113]⟩, ⟨"assistant", [97]⟩] }) ∧
    (getConversation
        [("c", ⟨"c", 1, [⟨"user", [104]⟩, ⟨"assistant", [121]⟩]⟩)] "c"
        = none →
      getConversation (chatPersist
        [("c", ⟨"c", 1, [⟨"user", [104]⟩, ⟨"assistant", [121]⟩]⟩)]
        [] 1 [113] [97] "c").1 "c"
        = some ⟨"c", 1, [⟨"user", [113]⟩, ⟨"assistant", [97]⟩]⟩) ∧
    (getConversation
        [("c", ⟨"c", 1, [⟨"user", [104]⟩, ⟨"assistant", [121]⟩]⟩)] "c"
        = none →
      getConversation (saveStreamConversation
        [("c", ⟨"c", 1, [⟨"user", [104]⟩, ⟨"assistant", [121]⟩]⟩)]
        [] 1 [113] [97] "c").1 "c"
        = some ⟨"c", 1, [⟨"user", [113]⟩, ⟨"assistant", [97]⟩]⟩) ∧
    (∀ conv, getConversation
        [("c", ⟨"c", 1, [⟨"user", [104]⟩, ⟨"assistant", [121]⟩]⟩)] "c"
        = some conv → conv.id = "c" →
      getConversation (saveStreamConversation
        [("c", ⟨"c", 1, [⟨"user", [104]⟩, ⟨"assistant", [121]⟩]⟩)]
        [] 1 [113] [97] "c").1 "c"
        = some { conv with messages := conv.messages ++
            [⟨"assistant", [97]⟩] }) :=
  c8_amended_append_pair
    [("c", ⟨"c", 1, [⟨"user", [104]⟩, ⟨"assistant", [121]⟩]⟩)]
    [] 1 [113] [97] "c"

/-- C9 fails on the code: when the first user message is longer than 50
bytes, both history writers truncate to 50 bytes and append `"..."`, so
the stored title has 53 characters — more than 50, and not a prefix of
the message.  A 60-byte first message yields a 53-byte title. -/
theorem c9_counterexample :
    (chatPersist [] [] 1 (List.replicate 60 97) [111] "c").2
      = [⟨1, "c", List.replicate 50 97 ++ [46, 46, 46]⟩] ∧
    (List.replicate 50 (97 : Nat) ++ [46, 46, 46]).length = 53 ∧
    ¬ (53 ≤ 50) := by
  refine ⟨?_, by decide, by decide⟩
  rfl

/-- C9 amended: whenever a ChatHistory row is created (first exchange of
a non-streaming turn, or the conversation-absent branch of the streaming
save), its title is the whole first user message when that message is at
most 50 bytes, and the first 50 bytes followed by `"..."` otherwise — so
the title has at most 53 bytes, not 50. -/
theorem c9_amended_title (m : Bytes) (cache : ConvCache)
    (hist : List ChatHistory) (uId : Nat) (r : Bytes) (cid : String) :
    (chatTitle m).length ≤ 53 ∧
    (m.length ≤ 50 → chatTitle m = m) ∧
    (50 < m.length → chatTitle m = m.take 50 ++ [46, 46, 46]) ∧
    ((chatPersist cache hist uId m r cid).2 = hist ∨
      (chatPersist cache hist uId m r cid).2
        = hist ++ [⟨uId, cid, chatTitle m⟩]) ∧
    ((saveStreamConversation cache hist uId m r cid).2 = hist ∨
      (saveStreamConversation cache hist uId m r cid).2
        = hist ++ [⟨uId, cid, chatTitle m⟩]) := by
  refine ⟨?_, ?_, ?_, ?_, ?_⟩
  · unfold chatTitle
    split
    · rw [List.length_append, List.length_take]
      simp only [List.length_cons, List.length_nil]
      omega
    · omega
  · intro h
    unfold chatTitle
    rw [if_neg (by omega)]
  · intro h
    unfold chatTitle
    rw [if_pos h]
  · simp only [chatPersist]
    split
    · exact .inr rfl
    · exact .inl rfl
  · simp only [saveStreamConversation]
    split
    · exact .inl rfl
    · exact .inr rfl

/-- Witness for the amended C9 on a 60-byte first message. -/
theorem c9_amended_title_witness :
    (chatTitle (List.replicate 60 97)).length ≤ 53 ∧
    ((List.replicate 60 (97 : Nat)).length ≤ 50 →
      chatTitle (List.replicate 60 97) = List.replicate 60 97) ∧
    (50 < (List.replicate 60 (97 : Nat)).length →
      chatTitle (List.replicate 60 97)
        = (List.replicate 60 (97 : Nat)).take 50 ++ [46, 46, 46]) ∧
    ((chatPersist [] [] 1 (List.replicate 60 97) [111] "c").2 = [] ∨
      (chatPersist [] [] 1 (List.replicate 60 97) [111] "c").2
        = [] ++ [⟨1, "c", chatTitle (List.replicate 60 97)⟩]) ∧
    ((saveStreamConversation [] [] 1 (List.replicate 60 97) [111] "c").2
        = [] ∨
      (saveStreamConversation [] [] 1 (List.replicate 60 97) [111] "c").2
        = [] ++ [⟨1, "c", chatTitle (List.replicate 60 97)⟩]) :=
  c9_amended_title (List.replicate 60 97) [] [] 1 [111] "c"

end EinoRag
